import Mathlib

/-!
# File descriptor manager (`src/libCom/fdmgr/fdManager.h`)

A shallow embedding of the inline code of `fdManager.h`: the registration key
`fdRegId` (constructor, `operator ==`, `resourceHash`) and the inline
constructor `fdReg::fdReg`.

Conventions of the embedding.

* `SOCKET` is the POSIX `int` descriptor; it is an `Int` here and the cast
  `(unsigned) fd` is reduction modulo `2^32`.
* `unsigned` and `resTableIndex` values are `Nat`s below `2^32`; right shifts and
  XORs of such values stay below `2^32`, so no further reduction is needed.
  A right shift of a 32-bit value by 32 or more has no defined result in C++
  and is reported as `Run.undefinedShift`.
* `unsigned char` members hold values modulo `256`.
* The `while` loop of `resourceHash` is run with fuel: the fuel bounds the
  number of evaluations of the loop condition.
* `assert` is the checking assertion: a false condition stops the program.
* `FD_IN_FDSET`, `fdManager::installReg` and `__FILE__` are not defined in the
  header; they are fields of `Platform`.
-/

namespace FdManager

/-- The enumeration `fdRegType` with all four enumerators of the header. -/
inductive fdRegType where
  | fdrRead
  | fdrWrite
  | fdrExcp
  | fdRegTypeNElem
  deriving DecidableEq

/-- Numeric value of an `fdRegType` enumerator. -/
def fdRegType.toNat : fdRegType → Nat
  | .fdrRead => 0
  | .fdrWrite => 1
  | .fdrExcp => 2
  | .fdRegTypeNElem => 3

/-- The enumeration `fdRegState`. -/
inductive fdRegState where
  | fdrActive
  | fdrPending
  | fdrLimbo
  deriving DecidableEq

/-- Numeric value of an `fdRegState` enumerator. -/
def fdRegState.toNat : fdRegState → Nat
  | .fdrActive => 0
  | .fdrPending => 1
  | .fdrLimbo => 2

/-- The descriptor type `SOCKET` (a signed `int` on POSIX hosts). -/
abbrev SOCKET := Int

/-- The cast `(unsigned) x` of a signed value: reduction modulo `2^32`. -/
def toUnsigned (x : Int) : Nat := (x % 2 ^ 32).toNat

/-- The conversion of an `unsigned` value to `unsigned char`. -/
def toUChar (x : Nat) : Nat := x % 256

/-- How a call ends: it returns a value, or an `assert` stops the program. -/
inductive Outcome (α : Type) where
  | returned (a : α)
  | assertFailed (expr : String)

/-- Whether a call ended without returning. -/
def Outcome.failed {α : Type} : Outcome α → Bool
  | .returned _ => false
  | .assertFailed _ => true

/-- Result of running the hash: a value, the fuel ran out before the loop
condition became false, or a shift with no defined result was requested. -/
inductive Run (α : Type) where
  | done (a : α)
  | outOfFuel
  | undefinedShift
  deriving DecidableEq

/-- Class `fdRegId`: the members `fd` and `type`. -/
structure fdRegId where
  fd : SOCKET
  type : fdRegType
  deriving DecidableEq

/-- Constructor `fdRegId::fdRegId (fdIn, typeIn) : fd(fdIn), type(typeIn) {}`.
The body is empty: the members are initialised and the call returns. -/
def fdRegId.construct (fdIn : SOCKET) (typeIn : fdRegType) : Outcome fdRegId :=
  .returned (fdRegId.mk fdIn typeIn)

/-- Member `fdRegId::getFD`. -/
def fdRegId.getFD (self : fdRegId) : SOCKET := self.fd

/-- Member `fdRegId::getType`. -/
def fdRegId.getType (self : fdRegId) : fdRegType := self.type

/-- Member `fdRegId::operator ==`, returning the `int` value of
`this->fd == idIn.fd && this->type==idIn.type`. -/
def fdRegId.operatorEq (self idIn : fdRegId) : Int :=
  if (decide (self.fd = idIn.fd) && decide (self.type = idIn.type)) = true then 1 else 0

/-- The loop `while (src) { hashid = hashid ^ src; src = src >> nBitsId; }`.
One unit of fuel is spent per evaluation of the loop condition. -/
def resourceHashLoop (nBitsId : Nat) : Nat → Nat → Nat → Run Nat
  | 0, _, _ => .outOfFuel
  | fuel + 1, src, hashid =>
    if src ≠ 0 then
      resourceHashLoop nBitsId fuel (src >>> nBitsId) (hashid ^^^ src)
    else
      .done hashid

/-- Member `fdRegId::resourceHash (unsigned nBitsId)`. -/
def fdRegId.resourceHash (fuel : Nat) (self : fdRegId) (nBitsId : Nat) : Run Nat :=
  if 32 ≤ nBitsId then .undefinedShift
  else
    let src := toUnsigned self.fd
    let hashid := src
    let src := src >>> nBitsId
    match resourceHashLoop nBitsId fuel src hashid with
    | .done hashid => .done (hashid ^^^ self.type.toNat)
    | .outOfFuel => .outOfFuel
    | .undefinedShift => .undefinedShift

/-- Class `fdReg`: the base `fdRegId` and the two `unsigned char` members. -/
structure fdReg where
  toFdRegId : fdRegId
  state : Nat
  onceOnly : Nat
  deriving DecidableEq

/-- What the constructor can act on: the global `fileDescriptorManager`, the
text written to `stderr`, and the records handed to `installReg` so far. -/
structure World (M : Type) where
  fileDescriptorManager : M
  stderr : List String
  installRegCalls : List fdReg

/-- The parts used by `fdReg::fdReg` that the header does not define: the macro
`FD_IN_FDSET`, the member `fdManager::installReg` (it receives the manager and
the record by reference) and the value of `__FILE__`. -/
structure Platform (M : Type) where
  FD_IN_FDSET : SOCKET → Bool
  installReg : M → fdReg → M × fdReg
  fileName : String

/-- The diagnostic printed for a descriptor outside the watchable range. -/
def ignoredDiagnostic (file : String) : String :=
  file ++ ": fd > FD_SETSIZE ignored\n"

/-- Constructor `fdReg::fdReg (fdIn, typIn, onceOnlyIn)`: the initialiser list
`fdRegId(fdIn,typIn), state(fdrLimbo), onceOnly(onceOnlyIn)` followed by the
body. -/
def fdReg.construct {M : Type} (P : Platform M) (w : World M)
    (fdIn : SOCKET) (typIn : fdRegType) (onceOnlyIn : Nat) : Outcome fdReg × World M :=
  match fdRegId.construct fdIn typIn with
  | .assertFailed e => (.assertFailed e, w)
  | .returned base =>
    let self : fdReg := fdReg.mk base (toUChar fdRegState.fdrLimbo.toNat) (toUChar onceOnlyIn)
    if ¬ (fdIn ≥ 0) then
      (.assertFailed "fdIn>=0", w)
    else if P.FD_IN_FDSET fdIn = false then
      (.returned self,
        World.mk w.fileDescriptorManager (w.stderr ++ [ignoredDiagnostic P.fileName])
          w.installRegCalls)
    else
      let r := P.installReg w.fileDescriptorManager self
      (.returned r.2, World.mk r.1 w.stderr (w.installRegCalls ++ [self]))

/-- The constructor called without the third argument (`onceOnly=0`). -/
def fdReg.constructDefault {M : Type} (P : Platform M) (w : World M)
    (fdIn : SOCKET) (typIn : fdRegType) : Outcome fdReg × World M :=
  fdReg.construct P w fdIn typIn 0

/-- XOR of the shifted values `u >> (k*n)` for `k = 0, ..., K-1`. -/
def xorOfShifts (u n K : Nat) : Nat :=
  (List.range K).foldl (fun acc k => acc ^^^ (u >>> (k * n))) 0

/-- XOR of the `n`-bit chunks `(u >> (k*n)) mod 2^n` for `k = 0, ..., K-1`. -/
def xorOfChunks (u n K : Nat) : Nat :=
  (List.range K).foldl (fun acc k => acc ^^^ ((u >>> (k * n)) % 2 ^ n)) 0

/-- A concrete platform on which the constructor can be evaluated: descriptors
below `1024` are watchable, the manager is the list of the records installed so
far, and `installReg` appends the record, marked `fdrPending`. -/
def samplePlatform : Platform (List fdReg) :=
  Platform.mk (fun fd => decide (fd < 1024))
    (fun m reg =>
      (m ++ [fdReg.mk reg.toFdRegId fdRegState.fdrPending.toNat reg.onceOnly],
        fdReg.mk reg.toFdRegId fdRegState.fdrPending.toNat reg.onceOnly))
    "fdManager.h"

/-- The world before any registration: an empty manager and no output. -/
def sampleWorld : World (List fdReg) := World.mk [] [] []

/-! ## Auxiliary lemmas -/

theorem toUnsigned_lt (x : Int) : toUnsigned x < 2 ^ 32 := by
  unfold toUnsigned
  have h1 : (0 : Int) ≤ x % 2 ^ 32 := Int.emod_nonneg _ (by norm_num)
  have h2 : x % 2 ^ 32 < 2 ^ 32 := Int.emod_lt_of_pos _ (by norm_num)
  omega

theorem toUnsigned_of_nonneg (x : Int) (h0 : 0 ≤ x) (h1 : x < 2 ^ 32) :
    toUnsigned x = x.toNat := by
  unfold toUnsigned
  rw [Int.emod_eq_of_lt h0 h1]

theorem xor_mod_two_pow (a b n : Nat) :
    (a ^^^ b) % 2 ^ n = (a % 2 ^ n) ^^^ (b % 2 ^ n) := by
  apply Nat.eq_of_testBit_eq
  intro i
  simp only [Nat.testBit_mod_two_pow, Nat.testBit_xor]
  by_cases h : i < n <;> simp [h]

theorem xorOfShifts_zero (u n : Nat) : xorOfShifts u n 0 = 0 := rfl

theorem xorOfShifts_succ (u n K : Nat) :
    xorOfShifts u n (K + 1) = xorOfShifts u n K ^^^ (u >>> (K * n)) := by
  simp [xorOfShifts, List.range_succ, List.foldl_append]

theorem xorOfChunks_succ (u n K : Nat) :
    xorOfChunks u n (K + 1) = xorOfChunks u n K ^^^ ((u >>> (K * n)) % 2 ^ n) := by
  simp [xorOfChunks, List.range_succ, List.foldl_append]

theorem xorOfShifts_one (u n : Nat) : xorOfShifts u n 1 = u := by
  rw [xorOfShifts_succ, xorOfShifts_zero, Nat.zero_mul, Nat.shiftRight_zero, Nat.zero_xor]

theorem shiftRight_zero_mono (u a b : Nat) (h : u >>> a = 0) (hab : a ≤ b) :
    u >>> b = 0 := by
  obtain ⟨c, rfl⟩ := Nat.exists_eq_add_of_le hab
  rw [Nat.shiftRight_add, h, Nat.zero_shiftRight]

theorem shiftRight_eq_zero_of_lt (u a : Nat) (h : u < 2 ^ a) : u >>> a = 0 := by
  rw [Nat.shiftRight_eq_div_pow]
  exact Nat.div_eq_of_lt h

theorem xorOfShifts_stable (u n K : Nat) (h : u >>> (K * n) = 0) :
    ∀ d, xorOfShifts u n (K + d) = xorOfShifts u n K := by
  intro d
  induction d with
  | zero => rfl
  | succ d ih =>
    rw [← Nat.add_assoc, xorOfShifts_succ, ih]
    have hz : u >>> ((K + d) * n) = 0 :=
      shiftRight_zero_mono u (K * n) _ h (Nat.mul_le_mul_right n (Nat.le_add_right K d))
    rw [hz, Nat.xor_zero]

theorem xorOfShifts_eq_of_zero (u n K L : Nat) (hK : u >>> (K * n) = 0)
    (hL : u >>> (L * n) = 0) : xorOfShifts u n K = xorOfShifts u n L := by
  rcases Nat.le_total K L with h | h
  · obtain ⟨d, rfl⟩ := Nat.exists_eq_add_of_le h
    exact (xorOfShifts_stable u n K hK d).symm
  · obtain ⟨d, rfl⟩ := Nat.exists_eq_add_of_le h
    exact xorOfShifts_stable u n L hL d

theorem xorOfShifts_cons (u n : Nat) :
    ∀ K, xorOfShifts u n (K + 1) = u ^^^ xorOfShifts (u >>> n) n K := by
  intro K
  induction K with
  | zero => rw [xorOfShifts_one, xorOfShifts_zero, Nat.xor_zero]
  | succ K ih =>
    rw [xorOfShifts_succ, ih, xorOfShifts_succ, Nat.xor_assoc]
    congr 2
    rw [← Nat.shiftRight_add]
    congr 1
    ring

theorem xorOfShifts_mod (u n : Nat) :
    ∀ K, xorOfShifts u n K % 2 ^ n = xorOfChunks u n K := by
  intro K
  induction K with
  | zero => simp [xorOfShifts, xorOfChunks, Nat.zero_mod]
  | succ K ih =>
    rw [xorOfShifts_succ, xorOfChunks_succ, xor_mod_two_pow, ih]

theorem xorOfShifts_lt (u n : Nat) (hu : u < 2 ^ 32) :
    ∀ K, xorOfShifts u n K < 2 ^ 32 := by
  intro K
  induction K with
  | zero => simp [xorOfShifts]
  | succ K ih =>
    rw [xorOfShifts_succ]
    apply Nat.xor_lt_two_pow ih
    rw [Nat.shiftRight_eq_div_pow]
    exact lt_of_le_of_lt (Nat.div_le_self _ _) hu

/-- Loop invariant: entered with `src = u >> (j*n)` and `hashid` the XOR of the
first `j` shifted values, the loop returns the XOR of all shifted values as soon
as the fuel reaches an index at which the shifted value is zero. -/
theorem resourceHashLoop_spec (u n : Nat) :
    ∀ fuel j, u >>> ((j + fuel) * n) = 0 →
      resourceHashLoop n (fuel + 1) (u >>> (j * n)) (xorOfShifts u n j)
        = .done (xorOfShifts u n (j + fuel)) := by
  intro fuel
  induction fuel with
  | zero =>
    intro j h
    simp only [Nat.add_zero] at h ⊢
    simp [resourceHashLoop, h]
  | succ f ih =>
    intro j h
    by_cases hz : u >>> (j * n) = 0
    · have := xorOfShifts_stable u n j hz (f + 1)
      simp [resourceHashLoop, hz, this]
    · have h2 : u >>> ((j + 1 + f) * n) = 0 := by
        have : j + 1 + f = j + (f + 1) := by omega
        rw [this]; exact h
      have e := ih (j + 1) h2
      have hs : (u >>> (j * n)) >>> n = u >>> ((j + 1) * n) := by
        rw [← Nat.shiftRight_add]; congr 1; ring
      rw [resourceHashLoop]
      simp only [ne_eq, hz, not_false_eq_true, if_true, hs, ← xorOfShifts_succ]
      rw [e]
      congr 2
      omega

/-- With `1 ≤ n ≤ 31` and fuel `f` such that `32 ≤ f * n`, the hash returns the
XOR of the first `f` shifted values of the unsigned descriptor, XORed with the
interest type. -/
theorem resourceHash_eq (id : fdRegId) (n fuel : Nat) (hn : n ≤ 31)
    (hf : 32 ≤ fuel * n) :
    id.resourceHash fuel n
      = .done (xorOfShifts (toUnsigned id.fd) n fuel ^^^ id.type.toNat) := by
  have hu := toUnsigned_lt id.fd
  have hz : toUnsigned id.fd >>> (fuel * n) = 0 :=
    shiftRight_zero_mono _ 32 _ (shiftRight_eq_zero_of_lt _ _ hu) hf
  obtain ⟨f, rfl⟩ : ∃ f, fuel = f + 1 := by
    cases fuel with
    | zero => simp at hf
    | succ f => exact ⟨f, rfl⟩
  have hz2 : toUnsigned id.fd >>> ((1 + f) * n) = 0 := by
    rw [Nat.add_comm 1 f]; exact hz
  have e := resourceHashLoop_spec (toUnsigned id.fd) n f 1 hz2
  have h1 := xorOfShifts_one (toUnsigned id.fd) n
  rw [h1, Nat.one_mul, Nat.add_comm 1 f] at e
  unfold fdRegId.resourceHash
  have hn2 : ¬ 32 ≤ n := by omega
  simp only [hn2, if_false, e]

theorem resourceHashLoop_zero_width (fuel : Nat) :
    ∀ src hashid, src ≠ 0 → resourceHashLoop 0 fuel src hashid = .outOfFuel := by
  induction fuel with
  | zero => intro src hashid _; rfl
  | succ f ih =>
    intro src hashid h
    rw [resourceHashLoop]
    simp only [ne_eq, h, not_false_eq_true, if_true, Nat.shiftRight_zero]
    exact ih src _ h

theorem shiftRight_lt_self (src n : Nat) (hn : 1 ≤ n) (hs : src ≠ 0) : src >>> n < src := by
  rw [Nat.shiftRight_eq_div_pow]
  apply Nat.div_lt_self (Nat.pos_of_ne_zero hs)
  calc 1 < 2 ^ 1 := by norm_num
    _ ≤ 2 ^ n := Nat.pow_le_pow_right (by norm_num) hn

theorem ceil_mul_ge (n fuel : Nat) (h1 : 1 ≤ n) (hf : (32 + n - 1) / n ≤ fuel) :
    32 ≤ fuel * n := by
  have h2 : 32 + n - 1 < (32 + n - 1) / n * n + n := Nat.lt_div_mul_add h1
  have h3 : (32 + n - 1) / n * n ≤ fuel * n := Nat.mul_le_mul_right n hf
  generalize (32 + n - 1) / n * n = q at h2 h3
  generalize fuel * n = p at h3 ⊢
  omega

theorem toUnsigned_injOn (d1 d2 : Int) (l1 : -2 ^ 31 ≤ d1) (u1 : d1 < 2 ^ 31)
    (l2 : -2 ^ 31 ≤ d2) (u2 : d2 < 2 ^ 31) (h : toUnsigned d1 = toUnsigned d2) : d1 = d2 := by
  unfold toUnsigned at h
  norm_num at l1 u1 l2 u2 h
  omega

theorem construct_of_neg {M : Type} (P : Platform M) (w : World M)
    (fd : SOCKET) (t : fdRegType) (onceOnlyIn : Nat) (hneg : fd < 0) :
    fdReg.construct P w fd t onceOnlyIn = (.assertFailed "fdIn>=0", w) := by
  have hn : ¬ (fd ≥ 0) := not_le.mpr hneg
  simp only [fdReg.construct, fdRegId.construct, hn, not_false_eq_true, if_true]

theorem construct_of_out {M : Type} (P : Platform M) (w : World M)
    (fd : SOCKET) (t : fdRegType) (onceOnlyIn : Nat)
    (h0 : 0 ≤ fd) (hout : P.FD_IN_FDSET fd = false) :
    fdReg.construct P w fd t onceOnlyIn
      = (.returned (fdReg.mk (fdRegId.mk fd t) fdRegState.fdrLimbo.toNat (toUChar onceOnlyIn)),
          World.mk w.fileDescriptorManager (w.stderr ++ [ignoredDiagnostic P.fileName])
            w.installRegCalls) := by
  have hn : ¬ ¬ (fd ≥ 0) := not_not.mpr h0
  simp only [fdReg.construct, fdRegId.construct, hn, hout, if_false, if_true]
  rfl

theorem construct_of_in {M : Type} (P : Platform M) (w : World M)
    (fd : SOCKET) (t : fdRegType) (onceOnlyIn : Nat)
    (h0 : 0 ≤ fd) (hin : P.FD_IN_FDSET fd = true) :
    fdReg.construct P w fd t onceOnlyIn
      = (.returned (P.installReg w.fileDescriptorManager
            (fdReg.mk (fdRegId.mk fd t) fdRegState.fdrLimbo.toNat (toUChar onceOnlyIn))).2,
          World.mk
            (P.installReg w.fileDescriptorManager
              (fdReg.mk (fdRegId.mk fd t) fdRegState.fdrLimbo.toNat (toUChar onceOnlyIn))).1
            w.stderr
            (w.installRegCalls ++
              [fdReg.mk (fdRegId.mk fd t) fdRegState.fdrLimbo.toNat (toUChar onceOnlyIn)])) := by
  have hn : ¬ ¬ (fd ≥ 0) := not_not.mpr h0
  have hin2 : ¬ (P.FD_IN_FDSET fd = false) := by simp [hin]
  simp only [fdReg.construct, fdRegId.construct, hn, hin2, if_false]
  rfl

/-! ## The claims about the key `fdRegId` -/

/-- C1: for every descriptor, interest type and chunk width `1 ≤ n ≤ 31`, the
hash returns (given fuel for 32 evaluations of the loop condition) the XOR of
the shifted values `fd >> (k*n)`, `k < K`, of the unsigned descriptor, for any
`K` at which the shifted value is zero, XORed with the numeric value of the
type; its low `n` bits are the XOR of the `n`-bit chunks XORed with the low `n`
bits of the type. Such a `K` exists (`K = 32`). -/
theorem resourceHash_is_xor_of_shifts (fd : SOCKET) (t : fdRegType) (n fuel : Nat)
    (h1 : 1 ≤ n) (h31 : n ≤ 31) (hf : 32 ≤ fuel) :
    ∃ h, (fdRegId.mk fd t).resourceHash fuel n = .done h ∧
      toUnsigned fd >>> (32 * n) = 0 ∧
      ∀ K, toUnsigned fd >>> (K * n) = 0 →
        h = xorOfShifts (toUnsigned fd) n K ^^^ t.toNat ∧
        h % 2 ^ n = xorOfChunks (toUnsigned fd) n K ^^^ (t.toNat % 2 ^ n) := by
  have hfn : 32 ≤ fuel * n := le_trans hf (Nat.le_mul_of_pos_right fuel h1)
  have hz : toUnsigned fd >>> (fuel * n) = 0 :=
    shiftRight_zero_mono _ 32 _ (shiftRight_eq_zero_of_lt _ _ (toUnsigned_lt fd)) hfn
  have hz32 : toUnsigned fd >>> (32 * n) = 0 :=
    shiftRight_zero_mono _ 32 _ (shiftRight_eq_zero_of_lt _ _ (toUnsigned_lt fd))
      (Nat.le_mul_of_pos_right 32 h1)
  refine ⟨_, resourceHash_eq (fdRegId.mk fd t) n fuel h31 hfn, hz32, ?_⟩
  intro K hK
  have e : xorOfShifts (toUnsigned fd) n fuel = xorOfShifts (toUnsigned fd) n K :=
    xorOfShifts_eq_of_zero _ n fuel K hz hK
  rw [e]
  exact ⟨rfl, by rw [xor_mod_two_pow, xorOfShifts_mod]⟩

theorem resourceHash_is_xor_of_shifts_witness :
    (1 ≤ 3 ∧ 3 ≤ 31 ∧ 32 ≤ 32) ∧
    ∃ h, (fdRegId.mk 77 fdRegType.fdrWrite).resourceHash 32 3 = .done h ∧
      toUnsigned 77 >>> (32 * 3) = 0 ∧
      ∀ K, toUnsigned 77 >>> (K * 3) = 0 →
        h = xorOfShifts (toUnsigned 77) 3 K ^^^ fdRegType.fdrWrite.toNat ∧
        h % 2 ^ 3 = xorOfChunks (toUnsigned 77) 3 K ^^^ (fdRegType.fdrWrite.toNat % 2 ^ 3) :=
  ⟨by decide, resourceHash_is_xor_of_shifts 77 fdRegType.fdrWrite 3 32 (by decide) (by decide)
    (by decide)⟩

/-- C5: `operator ==` is true exactly when the two keys have the same
descriptor and the same interest type, and equal keys have the same hash for
every chunk width `n ≥ 1` (the same outcome for every fuel; a value for
`n ≤ 31` and fuel for 32 evaluations of the loop condition). -/
theorem operatorEq_iff_and_hash_agrees (a b : fdRegId) :
    (a.operatorEq b ≠ 0 ↔ a.fd = b.fd ∧ a.type = b.type) ∧
    (a.operatorEq b ≠ 0 →
      ∀ n fuel, 1 ≤ n →
        a.resourceHash fuel n = b.resourceHash fuel n ∧
        (n ≤ 31 → 32 ≤ fuel →
          ∃ h, a.resourceHash fuel n = .done h ∧ b.resourceHash fuel n = .done h)) := by
  have key : a.operatorEq b ≠ 0 ↔ a.fd = b.fd ∧ a.type = b.type := by
    unfold fdRegId.operatorEq
    by_cases h1 : a.fd = b.fd <;> by_cases h2 : a.type = b.type <;> simp [h1, h2]
  refine ⟨key, ?_⟩
  intro h n fuel hn
  obtain ⟨hfd, hty⟩ := key.mp h
  have hab : a = b := by
    cases a; cases b; simp only [fdRegId.mk.injEq]; exact ⟨hfd, hty⟩
  subst hab
  refine ⟨rfl, ?_⟩
  intro h31 hf
  exact ⟨_, resourceHash_eq a n fuel h31 (le_trans hf (Nat.le_mul_of_pos_right fuel hn)), 
    resourceHash_eq a n fuel h31 (le_trans hf (Nat.le_mul_of_pos_right fuel hn))⟩

theorem operatorEq_iff_and_hash_agrees_witness :
    ((fdRegId.mk 9 fdRegType.fdrExcp).operatorEq (fdRegId.mk 9 fdRegType.fdrExcp) ≠ 0 ↔
        (fdRegId.mk 9 fdRegType.fdrExcp).fd = (fdRegId.mk 9 fdRegType.fdrExcp).fd ∧
        (fdRegId.mk 9 fdRegType.fdrExcp).type = (fdRegId.mk 9 fdRegType.fdrExcp).type) ∧
    ((fdRegId.mk 9 fdRegType.fdrExcp).operatorEq (fdRegId.mk 9 fdRegType.fdrExcp) ≠ 0 →
      ∀ n fuel, 1 ≤ n →
        (fdRegId.mk 9 fdRegType.fdrExcp).resourceHash fuel n
          = (fdRegId.mk 9 fdRegType.fdrExcp).resourceHash fuel n ∧
        (n ≤ 31 → 32 ≤ fuel →
          ∃ h, (fdRegId.mk 9 fdRegType.fdrExcp).resourceHash fuel n = .done h ∧
            (fdRegId.mk 9 fdRegType.fdrExcp).resourceHash fuel n = .done h)) :=
  operatorEq_iff_and_hash_agrees (fdRegId.mk 9 fdRegType.fdrExcp) (fdRegId.mk 9 fdRegType.fdrExcp)

/-- C7 as stated fails: for descriptor `5`, type `fdrRead` and width `n = 1` the
hash returns `6`, which is not below `2^1`. -/
theorem resourceHash_not_masked_counterexample :
    (1 ≤ 1 ∧ 1 ≤ 31) ∧
    (fdRegId.mk 5 fdRegType.fdrRead).resourceHash 32 1 = .done 6 ∧ ¬ (6 < 2 ^ 1) := by
  decide

/-- C7 (amended): the hash returns an unmasked 32-bit value: for every
descriptor, interest type and width `1 ≤ n ≤ 31` the returned value is below
`2^32`; only its reduction modulo `2^n`, made after the return, is below
`2^n`. -/
theorem resourceHash_lt_two_pow_32 (fd : SOCKET) (t : fdRegType) (n fuel : Nat)
    (h1 : 1 ≤ n) (h31 : n ≤ 31) (hf : 32 ≤ fuel) :
    ∃ h, (fdRegId.mk fd t).resourceHash fuel n = .done h ∧ h < 2 ^ 32 ∧ h % 2 ^ n < 2 ^ n := by
  have hfn : 32 ≤ fuel * n := le_trans hf (Nat.le_mul_of_pos_right fuel h1)
  refine ⟨_, resourceHash_eq (fdRegId.mk fd t) n fuel h31 hfn, ?_, Nat.mod_lt _ (by positivity)⟩
  apply Nat.xor_lt_two_pow (xorOfShifts_lt _ n (toUnsigned_lt fd) fuel)
  cases t <;> simp [fdRegType.toNat]

theorem resourceHash_lt_two_pow_32_witness :
    (1 ≤ 1 ∧ 1 ≤ 31 ∧ 32 ≤ 32) ∧
    ∃ h, (fdRegId.mk 5 fdRegType.fdrRead).resourceHash 32 1 = .done h ∧ h < 2 ^ 32 ∧
      h % 2 ^ 1 < 2 ^ 1 :=
  ⟨by decide, resourceHash_lt_two_pow_32 5 fdRegType.fdrRead 1 32 (by decide) (by decide)
    (by decide)⟩

/-- C8: for every width `1 ≤ n ≤ 31` and interest type, two distinct
descriptors whose unsigned values lie in the same aligned block of `2^n`
values (equal after `>> n`) get different bucket indices `resourceHash(n) mod
2^n`; in particular the descriptors `B * 2^n + j`, `j < 2^n`, of an aligned
block of non-negative descriptors get pairwise different bucket indices. -/
theorem resourceHash_block_distinct (t : fdRegType) (n fuel : Nat)
    (h1 : 1 ≤ n) (h31 : n ≤ 31) (hf : 32 ≤ fuel) :
    (∀ d1 d2 : SOCKET, -2 ^ 31 ≤ d1 → d1 < 2 ^ 31 → -2 ^ 31 ≤ d2 → d2 < 2 ^ 31 →
      d1 ≠ d2 → toUnsigned d1 >>> n = toUnsigned d2 >>> n →
      ∃ a b, (fdRegId.mk d1 t).resourceHash fuel n = .done a ∧
        (fdRegId.mk d2 t).resourceHash fuel n = .done b ∧ a % 2 ^ n ≠ b % 2 ^ n) ∧
    (∀ B j1 j2 : Nat, (B + 1) * 2 ^ n ≤ 2 ^ 31 → j1 < 2 ^ n → j2 < 2 ^ n → j1 ≠ j2 →
      ∃ a b, (fdRegId.mk ((B * 2 ^ n + j1 : Nat) : Int) t).resourceHash fuel n = .done a ∧
        (fdRegId.mk ((B * 2 ^ n + j2 : Nat) : Int) t).resourceHash fuel n = .done b ∧
        a % 2 ^ n ≠ b % 2 ^ n) := by
  have hfn : 32 ≤ fuel * n := le_trans hf (Nat.le_mul_of_pos_right fuel h1)
  obtain ⟨f, rfl⟩ : ∃ f, fuel = f + 1 := ⟨fuel - 1, by omega⟩
  have main : ∀ d1 d2 : SOCKET, -2 ^ 31 ≤ d1 → d1 < 2 ^ 31 → -2 ^ 31 ≤ d2 → d2 < 2 ^ 31 →
      d1 ≠ d2 → toUnsigned d1 >>> n = toUnsigned d2 >>> n →
      ∃ a b, (fdRegId.mk d1 t).resourceHash (f + 1) n = .done a ∧
        (fdRegId.mk d2 t).resourceHash (f + 1) n = .done b ∧ a % 2 ^ n ≠ b % 2 ^ n := by
    intro d1 d2 l1 u1 l2 u2 hne hblk
    refine ⟨_, _, resourceHash_eq (fdRegId.mk d1 t) n (f + 1) h31 hfn,
      resourceHash_eq (fdRegId.mk d2 t) n (f + 1) h31 hfn, ?_⟩
    intro heq
    apply hne
    apply toUnsigned_injOn d1 d2 l1 u1 l2 u2
    simp only [xorOfShifts_cons, hblk, Nat.xor_assoc] at heq
    rw [xor_mod_two_pow, xor_mod_two_pow (toUnsigned d2)] at heq
    have hm : toUnsigned d1 % 2 ^ n = toUnsigned d2 % 2 ^ n := Nat.xor_left_inj.mp heq
    have hd : toUnsigned d1 / 2 ^ n = toUnsigned d2 / 2 ^ n := by
      rw [← Nat.shiftRight_eq_div_pow, ← Nat.shiftRight_eq_div_pow]; exact hblk
    rw [← Nat.div_add_mod (toUnsigned d1) (2 ^ n), ← Nat.div_add_mod (toUnsigned d2) (2 ^ n),
      hm, hd]
  refine ⟨main, ?_⟩
  intro B j1 j2 hB hj1 hj2 hj
  have hB2 : B * 2 ^ n + 2 ^ n ≤ 2 ^ 31 := by
    rw [Nat.add_mul, Nat.one_mul] at hB; exact hB
  have b1 : B * 2 ^ n + j1 < 2 ^ 31 := by omega
  have b2 : B * 2 ^ n + j2 < 2 ^ 31 := by omega
  have c1 : ((B * 2 ^ n + j1 : Nat) : Int) < 2 ^ 31 := by exact_mod_cast b1
  have c2 : ((B * 2 ^ n + j2 : Nat) : Int) < 2 ^ 31 := by exact_mod_cast b2
  have n1 : (0 : Int) ≤ ((B * 2 ^ n + j1 : Nat) : Int) := Int.ofNat_nonneg _
  have n2 : (0 : Int) ≤ ((B * 2 ^ n + j2 : Nat) : Int) := Int.ofNat_nonneg _
  have e1 : toUnsigned ((B * 2 ^ n + j1 : Nat) : Int) = B * 2 ^ n + j1 := by
    rw [toUnsigned_of_nonneg _ n1 (by linarith)]; exact Int.toNat_ofNat _
  have e2 : toUnsigned ((B * 2 ^ n + j2 : Nat) : Int) = B * 2 ^ n + j2 := by
    rw [toUnsigned_of_nonneg _ n2 (by linarith)]; exact Int.toNat_ofNat _
  have hp : 0 < 2 ^ n := by positivity
  apply main _ _ (by linarith) c1 (by linarith) c2
  · intro h
    apply hj
    have := Int.ofNat_inj.mp h
    omega
  · rw [e1, e2, Nat.shiftRight_eq_div_pow, Nat.shiftRight_eq_div_pow,
      Nat.add_comm (B * 2 ^ n) j1, Nat.add_comm (B * 2 ^ n) j2,
      Nat.add_mul_div_right _ _ hp, Nat.add_mul_div_right _ _ hp,
      Nat.div_eq_of_lt hj1, Nat.div_eq_of_lt hj2]

theorem resourceHash_block_distinct_witness :
    (1 ≤ 2 ∧ 2 ≤ 31 ∧ 32 ≤ 32) ∧
    ((-2 ^ 31 ≤ (4 : Int) ∧ (4 : Int) < 2 ^ 31 ∧ -2 ^ 31 ≤ (7 : Int) ∧ (7 : Int) < 2 ^ 31 ∧
        (4 : Int) ≠ 7 ∧ toUnsigned 4 >>> 2 = toUnsigned 7 >>> 2) ∧
      ∃ a b, (fdRegId.mk 4 fdRegType.fdrRead).resourceHash 32 2 = .done a ∧
        (fdRegId.mk 7 fdRegType.fdrRead).resourceHash 32 2 = .done b ∧
        a % 2 ^ 2 ≠ b % 2 ^ 2) :=
  ⟨by decide, by decide,
    (resourceHash_block_distinct fdRegType.fdrRead 2 32 (by decide) (by decide) (by decide)).1
      4 7 (by decide) (by decide) (by decide) (by decide) (by decide) (by decide)⟩

/-- C10: for every descriptor and width `1 ≤ n ≤ 31` the folding loop ends: the
hash returns as soon as `ceil(32/n)` evaluations of the loop condition (one per
shift) are allowed, and a non-zero shifted value strictly decreases under
`>> n`. For `n = 0` and a descriptor whose unsigned value is non-zero the
shifted value never changes and the loop does not end for any fuel. -/
theorem resourceHash_terminates (fd : SOCKET) (t : fdRegType) (n : Nat)
    (h1 : 1 ≤ n) (h31 : n ≤ 31) :
    (∀ fuel, (32 + n - 1) / n ≤ fuel → ∃ h, (fdRegId.mk fd t).resourceHash fuel n = .done h) ∧
    (∀ src, src ≠ 0 → src >>> n < src) ∧
    (∀ fd0 : SOCKET, toUnsigned fd0 ≠ 0 →
      toUnsigned fd0 >>> 0 = toUnsigned fd0 ∧
      ∀ fuel, (fdRegId.mk fd0 t).resourceHash fuel 0 = .outOfFuel) := by
  refine ⟨?_, ?_, ?_⟩
  · intro fuel hf
    exact ⟨_, resourceHash_eq (fdRegId.mk fd t) n fuel h31 (ceil_mul_ge n fuel h1 hf)⟩
  · intro src hs
    exact shiftRight_lt_self src n h1 hs
  · intro fd0 hne
    refine ⟨Nat.shiftRight_zero, ?_⟩
    intro fuel
    unfold fdRegId.resourceHash
    simp only [Nat.shiftRight_zero]
    rw [resourceHashLoop_zero_width fuel _ _ hne]
    simp

theorem resourceHash_terminates_witness :
    (1 ≤ 5 ∧ 5 ≤ 31) ∧
    ((∀ fuel, (32 + 5 - 1) / 5 ≤ fuel →
        ∃ h, (fdRegId.mk 1000 fdRegType.fdrRead).resourceHash fuel 5 = .done h) ∧
      (∀ src, src ≠ 0 → src >>> 5 < src) ∧
      (∀ fd0 : SOCKET, toUnsigned fd0 ≠ 0 →
        toUnsigned fd0 >>> 0 = toUnsigned fd0 ∧
        ∀ fuel, (fdRegId.mk fd0 fdRegType.fdrRead).resourceHash fuel 0 = .outOfFuel)) :=
  ⟨by decide, resourceHash_terminates 1000 fdRegType.fdrRead 5 (by decide) (by decide)⟩

/-- C6 as stated fails: constructing the key from the negative descriptor `-1`
returns the key `(-1, fdrRead)`; it does not fail. -/
theorem fdRegId_construct_negative_counterexample :
    (-1 : Int) < 0 ∧
    (fdRegId.construct (-1) fdRegType.fdrRead).failed = false ∧
    (fdRegId.mk (-1) fdRegType.fdrRead).getFD = -1 := by
  decide

/-- C6 (amended): constructing an `fdRegId` never fails: for every descriptor,
negative ones included, and every interest type it returns the key holding
exactly that descriptor and type. The check for a negative descriptor is the
assertion in the body of `fdReg::fdReg`, which stops the registration. -/
theorem fdRegId_construct_total {M : Type} (P : Platform M) (w : World M)
    (fd : SOCKET) (t : fdRegType) (onceOnlyIn : Nat) :
    fdRegId.construct fd t = .returned (fdRegId.mk fd t) ∧
    (fdRegId.construct fd t).failed = false ∧
    (fdRegId.mk fd t).getFD = fd ∧ (fdRegId.mk fd t).getType = t ∧
    (fd < 0 → (fdReg.construct P w fd t onceOnlyIn).1.failed = true) := by
  refine ⟨rfl, rfl, rfl, rfl, ?_⟩
  intro h
  rw [construct_of_neg P w fd t onceOnlyIn h]
  rfl

theorem fdRegId_construct_total_witness :
    fdRegId.construct (-3) fdRegType.fdrWrite = .returned (fdRegId.mk (-3) fdRegType.fdrWrite) ∧
    (fdRegId.construct (-3) fdRegType.fdrWrite).failed = false ∧
    (fdRegId.mk (-3) fdRegType.fdrWrite).getFD = -3 ∧
    (fdRegId.mk (-3) fdRegType.fdrWrite).getType = fdRegType.fdrWrite ∧
    ((-3 : Int) < 0 →
      (fdReg.construct samplePlatform sampleWorld (-3) fdRegType.fdrWrite 1).1.failed = true) :=
  fdRegId_construct_total samplePlatform sampleWorld (-3) fdRegType.fdrWrite 1

/-! ## The claims about the constructor `fdReg::fdReg` -/

/-- C2: for a non-negative descriptor outside the watchable range
(`FD_IN_FDSET` false), any interest type and any one-shot argument, the
constructor returns, appends the `fd > FD_SETSIZE ignored` diagnostic to
`stderr`, does not call `installReg` (no call is recorded and the manager is
unchanged) and the record it returns is in state `fdrLimbo`. -/
theorem fdReg_construct_out_of_range {M : Type} (P : Platform M) (w : World M)
    (fd : SOCKET) (t : fdRegType) (onceOnlyIn : Nat)
    (h0 : 0 ≤ fd) (hout : P.FD_IN_FDSET fd = false) :
    (∃ r, (fdReg.construct P w fd t onceOnlyIn).1 = .returned r ∧
      r.state = fdRegState.fdrLimbo.toNat ∧ r.toFdRegId = fdRegId.mk fd t) ∧
    (fdReg.construct P w fd t onceOnlyIn).2.stderr
      = w.stderr ++ [P.fileName ++ ": fd > FD_SETSIZE ignored\n"] ∧
    (fdReg.construct P w fd t onceOnlyIn).2.installRegCalls = w.installRegCalls ∧
    (fdReg.construct P w fd t onceOnlyIn).2.fileDescriptorManager = w.fileDescriptorManager := by
  rw [construct_of_out P w fd t onceOnlyIn h0 hout]
  exact ⟨⟨_, rfl, rfl, rfl⟩, rfl, rfl, rfl⟩

theorem fdReg_construct_out_of_range_witness :
    ((0 : Int) ≤ 5000 ∧ samplePlatform.FD_IN_FDSET 5000 = false) ∧
    ((∃ r, (fdReg.construct samplePlatform sampleWorld 5000 fdRegType.fdrRead 1).1 = .returned r ∧
        r.state = fdRegState.fdrLimbo.toNat ∧ r.toFdRegId = fdRegId.mk 5000 fdRegType.fdrRead) ∧
      (fdReg.construct samplePlatform sampleWorld 5000 fdRegType.fdrRead 1).2.stderr
        = sampleWorld.stderr ++ [samplePlatform.fileName ++ ": fd > FD_SETSIZE ignored\n"] ∧
      (fdReg.construct samplePlatform sampleWorld 5000 fdRegType.fdrRead 1).2.installRegCalls
        = sampleWorld.installRegCalls ∧
      (fdReg.construct samplePlatform sampleWorld 5000 fdRegType.fdrRead 1).2.fileDescriptorManager
        = sampleWorld.fileDescriptorManager) :=
  ⟨by decide, fdReg_construct_out_of_range samplePlatform sampleWorld 5000 fdRegType.fdrRead 1
    (by decide) (by decide)⟩

/-- C3: for a negative descriptor, any interest type and any one-shot argument,
the constructor stops at the assertion `fdIn>=0`: it does not return, writes no
diagnostic, records no call of `installReg` and leaves the manager unchanged. -/
theorem fdReg_construct_negative_asserts {M : Type} (P : Platform M) (w : World M)
    (fd : SOCKET) (t : fdRegType) (onceOnlyIn : Nat) (hneg : fd < 0) :
    (fdReg.construct P w fd t onceOnlyIn).1 = .assertFailed "fdIn>=0" ∧
    (∀ r, (fdReg.construct P w fd t onceOnlyIn).1 ≠ .returned r) ∧
    (fdReg.construct P w fd t onceOnlyIn).2.stderr = w.stderr ∧
    (fdReg.construct P w fd t onceOnlyIn).2.installRegCalls = w.installRegCalls ∧
    (fdReg.construct P w fd t onceOnlyIn).2.fileDescriptorManager = w.fileDescriptorManager := by
  rw [construct_of_neg P w fd t onceOnlyIn hneg]
  refine ⟨rfl, ?_, rfl, rfl, rfl⟩
  intro r h
  cases h

theorem fdReg_construct_negative_asserts_witness :
    ((-1 : Int) < 0) ∧
    ((fdReg.construct samplePlatform sampleWorld (-1) fdRegType.fdrRead 0).1
        = .assertFailed "fdIn>=0" ∧
      (∀ r, (fdReg.construct samplePlatform sampleWorld (-1) fdRegType.fdrRead 0).1
        ≠ .returned r) ∧
      (fdReg.construct samplePlatform sampleWorld (-1) fdRegType.fdrRead 0).2.stderr
        = sampleWorld.stderr ∧
      (fdReg.construct samplePlatform sampleWorld (-1) fdRegType.fdrRead 0).2.installRegCalls
        = sampleWorld.installRegCalls ∧
      (fdReg.construct samplePlatform sampleWorld (-1) fdRegType.fdrRead 0).2.fileDescriptorManager
        = sampleWorld.fileDescriptorManager) :=
  ⟨by decide, fdReg_construct_negative_asserts samplePlatform sampleWorld (-1) fdRegType.fdrRead 0
    (by decide)⟩

/-- C4: for a non-negative descriptor inside the watchable range the
constructor builds the record in state `fdrLimbo` with the key `(fd, type)` it
was given, hands exactly that record to `installReg` once, writes no
diagnostic and returns what `installReg` left; and, for every descriptor, a
call of `installReg` is recorded if and only if the descriptor is non-negative
and in range. -/
theorem fdReg_construct_installs {M : Type} (P : Platform M) (w : World M)
    (fd : SOCKET) (t : fdRegType) (onceOnlyIn : Nat)
    (h0 : 0 ≤ fd) (hin : P.FD_IN_FDSET fd = true) :
    (∃ self : fdReg,
      self.toFdRegId = fdRegId.mk fd t ∧ self.state = fdRegState.fdrLimbo.toNat ∧
      self.onceOnly = toUChar onceOnlyIn ∧
      (fdReg.construct P w fd t onceOnlyIn).2.installRegCalls = w.installRegCalls ++ [self] ∧
      (fdReg.construct P w fd t onceOnlyIn).2.fileDescriptorManager
        = (P.installReg w.fileDescriptorManager self).1 ∧
      (fdReg.construct P w fd t onceOnlyIn).1
        = .returned (P.installReg w.fileDescriptorManager self).2) ∧
    (fdReg.construct P w fd t onceOnlyIn).2.stderr = w.stderr ∧
    (∀ (fd1 : SOCKET) (t1 : fdRegType) (once1 : Nat),
      ((fdReg.construct P w fd1 t1 once1).2.installRegCalls ≠ w.installRegCalls
        ↔ (0 ≤ fd1 ∧ P.FD_IN_FDSET fd1 = true)) ∧
      ((fdReg.construct P w fd1 t1 once1).2.installRegCalls.length
        = w.installRegCalls.length + (if 0 ≤ fd1 ∧ P.FD_IN_FDSET fd1 = true then 1 else 0))) := by
  refine ⟨?_, ?_, ?_⟩
  · rw [construct_of_in P w fd t onceOnlyIn h0 hin]
    exact ⟨_, rfl, rfl, rfl, rfl, rfl, rfl⟩
  · rw [construct_of_in P w fd t onceOnlyIn h0 hin]
  · intro fd1 t1 once1
    by_cases hneg : 0 ≤ fd1
    · cases hr : P.FD_IN_FDSET fd1
      · rw [construct_of_out P w fd1 t1 once1 hneg hr]
        simp [hneg]
      · rw [construct_of_in P w fd1 t1 once1 hneg hr]
        simp [hneg]
    · rw [construct_of_neg P w fd1 t1 once1 (not_le.mp hneg)]
      simp [hneg]

theorem fdReg_construct_installs_witness :
    ((0 : Int) ≤ 5 ∧ samplePlatform.FD_IN_FDSET 5 = true) ∧
    ((∃ self : fdReg,
        self.toFdRegId = fdRegId.mk 5 fdRegType.fdrRead ∧
        self.state = fdRegState.fdrLimbo.toNat ∧ self.onceOnly = toUChar 1 ∧
        (fdReg.construct samplePlatform sampleWorld 5 fdRegType.fdrRead 1).2.installRegCalls
          = sampleWorld.installRegCalls ++ [self] ∧
        (fdReg.construct samplePlatform sampleWorld 5 fdRegType.fdrRead 1).2.fileDescriptorManager
          = (samplePlatform.installReg sampleWorld.fileDescriptorManager self).1 ∧
        (fdReg.construct samplePlatform sampleWorld 5 fdRegType.fdrRead 1).1
          = .returned (samplePlatform.installReg sampleWorld.fileDescriptorManager self).2) ∧
      (fdReg.construct samplePlatform sampleWorld 5 fdRegType.fdrRead 1).2.stderr
        = sampleWorld.stderr ∧
      (∀ (fd1 : SOCKET) (t1 : fdRegType) (once1 : Nat),
        ((fdReg.construct samplePlatform sampleWorld fd1 t1 once1).2.installRegCalls
            ≠ sampleWorld.installRegCalls
          ↔ (0 ≤ fd1 ∧ samplePlatform.FD_IN_FDSET fd1 = true)) ∧
        ((fdReg.construct samplePlatform sampleWorld fd1 t1 once1).2.installRegCalls.length
          = sampleWorld.installRegCalls.length
            + (if 0 ≤ fd1 ∧ samplePlatform.FD_IN_FDSET fd1 = true then 1 else 0)))) :=
  ⟨by decide, fdReg_construct_installs samplePlatform sampleWorld 5 fdRegType.fdrRead 1
    (by decide) (by decide)⟩

/-- C9 fails on the code: the `unsigned` argument is narrowed to `unsigned
char`, so the argument `256` is stored as `0` and the constructor called with
`onceOnly = 256` does exactly what it does with the argument omitted. -/
theorem fdReg_onceOnly_truncated {M : Type} (P : Platform M) (w : World M)
    (fd : SOCKET) (t : fdRegType) :
    (256 ≠ 0 ∧ 256 < 2 ^ 32) ∧ toUChar 256 = 0 ∧
    fdReg.construct P w fd t 256 = fdReg.constructDefault P w fd t ∧
    (fdReg.construct samplePlatform sampleWorld 5 fdRegType.fdrRead 256).2.installRegCalls
      = [fdReg.mk (fdRegId.mk 5 fdRegType.fdrRead) fdRegState.fdrLimbo.toNat 0] := by
  refine ⟨by decide, by decide, ?_, by decide⟩
  unfold fdReg.constructDefault fdReg.construct
  have e : toUChar 256 = toUChar 0 := by decide
  simp only [e]

end FdManager
